/-
Verification of the Indian Poker competition engine
(src/IndianPokerCompetition.py): hand scoring, the round-level betting
state machine, chip accounting, the game loop and the tournament
schedule, shallowly embedded in Lean.

Python machine integers are unbounded, so chips and bets are modelled
as `ℤ` and card ranks as `ℕ`. Agents (`IPAgent.play`) are modelled as
arbitrary functions from a call index and the `VisibleState` snapshot
to a proposed integer bet; quantifying over all such functions covers
every deterministic or stateful agent behaviour within a round. The
`while` betting loop is embedded with explicit fuel, and termination is
proved by exhibiting sufficient fuel (`roundFuel`).
-/
import Mathlib

namespace IndianPoker

/-- End state of a round, mirroring the `RoundResult` enum in the source. -/
inductive RoundResult where
  | A_WIN
  | DRAW
  | B_WIN
deriving DecidableEq

/-- The state of the game which is visible to the agent, mirroring the
`VisibleState` class in the source (same fields, same order). -/
structure VisibleState where
  common_card_1 : ℕ
  common_card_2 : ℕ
  other_players_card : ℕ
  own_chips : ℤ
  others_chips : ℤ
  own_current_bet : ℤ
  others_current_bet : ℤ
  other_played : Bool
deriving DecidableEq

/-- Ascending sort of three naturals: `sorted([card, common1, common2])`
from `IPGame.calculateScore`. -/
def sort3 (a b c : ℕ) : ℕ × ℕ × ℕ :=
  if a ≤ b then
    if b ≤ c then (a, b, c)
    else if a ≤ c then (a, c, b)
    else (c, a, b)
  else
    if a ≤ c then (b, a, c)
    else if b ≤ c then (b, c, a)
    else (c, b, a)

/-- `IPGame.calculateScore`: associates each hand with a score, higher
score means better hand. Mirrors the source's if-chain: the two special
wrap straights, the generic (sorted) consecutive-run check with `% 10`,
three of a kind, two of a kind, then high card. -/
def calculateScore (card common1 common2 : ℕ) : ℕ :=
  let s := sort3 card common1 common2
  if s = (1, 9, 10) then 21
  else if s = (1, 2, 10) then 22
  else if s.2.1 = s.1 % 10 + 1 ∧ s.2.2 = s.2.1 % 10 + 1 then 20 + s.2.2
  else if card = common1 ∧ common1 = common2 then 20 + card
  else if card = common1 ∨ card = common2 then 10 + card
  else card

/-- `IPGame.showdown`: determines the winner once final bets are placed
without folding, or whether there is a draw. -/
def showdown (a_card b_card common1 common2 : ℕ) : RoundResult :=
  let score_a := calculateScore a_card common1 common2
  let score_b := calculateScore b_card common1 common2
  if score_a = score_b then RoundResult.DRAW
  else if score_a > score_b then RoundResult.A_WIN
  else RoundResult.B_WIN

/-- Fixed data of one round: the four sampled cards and the two chip
stacks as they stand when `IPGame.playRound` is entered (`self.a_chips`
and `self.b_chips` are not written to until the round resolves). -/
structure RoundCtx where
  a_card : ℕ
  b_card : ℕ
  common1 : ℕ
  common2 : ℕ
  a_chips : ℤ
  b_chips : ℤ
deriving DecidableEq

/-- The round-local mutable variables of `IPGame.playRound`'s betting
loop: `a_bet`, `b_bet`, `current_bet`, `a_can_raise`, `b_can_raise`,
`a_turn`. -/
structure BetState where
  a_bet : ℤ
  b_bet : ℤ
  current_bet : ℤ
  a_can_raise : Bool
  b_can_raise : Bool
  a_turn : Bool
deriving DecidableEq

/-- How the betting loop of `IPGame.playRound` ended: either some side
folded (recording who, and `current_bet` at the moment of the fold,
before any penalty), or betting closed and the round goes to showdown
(recording `a_bet`, the amount the source transfers at showdown). -/
inductive LoopResult where
  | fold (a_folded : Bool) (current_bet : ℤ)
  | showdown (a_bet : ℤ)
deriving DecidableEq

/-- The all-in normalization in `IPGame.playRound`:
`if proposed_bet >= min(self.a_chips, self.b_chips): proposed_bet = min(...)`. -/
def clampBet (a_chips b_chips proposed : ℤ) : ℤ :=
  if min a_chips b_chips ≤ proposed then min a_chips b_chips else proposed

/-- The `VisibleState` constructed for the acting side at the top of each
iteration of the betting loop in `IPGame.playRound`: on A's turn it is
`VisibleState(common1, common2, b_card, a_chips, b_chips, a_bet, b_bet,
not b_can_raise)`, and symmetrically on B's turn. -/
def stepVisible (ctx : RoundCtx) (st : BetState) : VisibleState :=
  if st.a_turn then
    ⟨ctx.common1, ctx.common2, ctx.b_card, ctx.a_chips, ctx.b_chips,
      st.a_bet, st.b_bet, !st.b_can_raise⟩
  else
    ⟨ctx.common1, ctx.common2, ctx.a_card, ctx.b_chips, ctx.a_chips,
      st.b_bet, st.a_bet, !st.a_can_raise⟩

/-- Replaces the acting player's own private card (A's card on A's turn,
B's card on B's turn) by `x`, leaving everything else unchanged. Used to
state that a decision's `VisibleState` does not depend on that card. -/
def actorCardUpdated (ctx : RoundCtx) (st : BetState) (x : ℕ) : RoundCtx :=
  if st.a_turn then { ctx with a_card := x } else { ctx with b_card := x }

/-- One iteration of the betting loop body of `IPGame.playRound` (entered
only when `a_can_raise or b_can_raise` holds): ask the acting player for a
bet on the `stepVisible` snapshot, apply the all-in clamp, then either end
the round as a fold (proposed bet strictly below `current_bet`) or update
the bets, flags, turn and `current_bet` exactly as the source does.
`pA`/`pB` are the two agents' `play` methods, modelled as functions of the
loop-iteration index and the visible snapshot. -/
def bettingStep (ctx : RoundCtx) (pA pB : ℕ → VisibleState → ℤ) (i : ℕ)
    (st : BetState) : LoopResult ⊕ BetState :=
  let raw := (if st.a_turn then pA else pB) i (stepVisible ctx st)
  let proposed := clampBet ctx.a_chips ctx.b_chips raw
  if proposed < st.current_bet then Sum.inl (LoopResult.fold st.a_turn st.current_bet)
  else
    let st1 :=
      if st.a_turn then
        { st with a_bet := proposed, a_turn := false, a_can_raise := false,
                  b_can_raise := decide (st.current_bet < proposed) }
      else
        { st with b_bet := proposed, a_turn := true, b_can_raise := false,
                  a_can_raise := decide (st.current_bet < proposed) }
    Sum.inr { st1 with current_bet := max st1.current_bet (max st1.a_bet st1.b_bet) }

/-- The `while a_can_raise or b_can_raise` loop of `IPGame.playRound`,
with explicit fuel (the source loop has no fuel; `bettingLoop_isSome`
proves `roundFuel` is always enough, so the fuel is only a device to make
the recursion structural). Returns `none` only on fuel exhaustion. -/
def bettingLoop (ctx : RoundCtx) (pA pB : ℕ → VisibleState → ℤ) :
    ℕ → ℕ → BetState → Option LoopResult
  | 0, _, st =>
      if st.a_can_raise || st.b_can_raise then none
      else some (LoopResult.showdown st.a_bet)
  | fuel + 1, i, st =>
      if st.a_can_raise || st.b_can_raise then
        match bettingStep ctx pA pB i st with
        | Sum.inl r => some r
        | Sum.inr st2 => bettingLoop ctx pA pB fuel (i + 1) st2
      else some (LoopResult.showdown st.a_bet)

/-- Initial betting state of a round: both bets and `current_bet` equal
the blind, both raise flags true, turn given by the game's `a_first`. -/
def initBetState (blind : ℤ) (a_first : Bool) : BetState :=
  ⟨blind, blind, blind, true, true, a_first⟩

/-- Fuel sufficient for the betting loop: each iteration other than the
last strictly raises `current_bet`, which the all-in clamp bounds by
`min a_chips b_chips`. -/
def roundFuel (ctx : RoundCtx) (blind : ℤ) : ℕ :=
  (min ctx.a_chips ctx.b_chips - blind).toNat + 1

/-- The game-level state owned by `IPGame` across rounds: the two chip
stacks and the `a_first` turn-order bit. -/
structure GState where
  a_chips : ℤ
  b_chips : ℤ
  a_first : Bool
deriving DecidableEq

/-- Everything external that one execution of `IPGame.playRound` consumes:
the four cards sampled by `self.rng.sample(self.deck, 4)` and the two
agents' `play` functions. -/
structure RoundInput where
  a_card : ℕ
  b_card : ℕ
  common1 : ℕ
  common2 : ℕ
  playA : ℕ → VisibleState → ℤ
  playB : ℕ → VisibleState → ℤ

/-- The `RoundCtx` for a round started from game state `g` with input `inp`. -/
def mkCtx (inp : RoundInput) (g : GState) : RoundCtx :=
  ⟨inp.a_card, inp.b_card, inp.common1, inp.common2, g.a_chips, g.b_chips⟩

/-- The fold penalty of `IPGame.playRound`: if the folder's score beats
the opponent's, `current_bet` is increased by 10 when the folder's score
exceeds 20 (straight/triple band), else by 5 when it exceeds 10 (pair
band); otherwise by nothing. -/
def foldPenalty (folderScore otherScore : ℕ) : ℤ :=
  if otherScore < folderScore then
    if 20 < folderScore then 10
    else if 10 < folderScore then 5
    else 0
  else 0

/-- The betting loop of one `IPGame.playRound` execution, started from
the round's initial state with the fuel `roundFuel` proves sufficient. -/
def roundLoop (blind : ℤ) (inp : RoundInput) (g : GState) : Option LoopResult :=
  bettingLoop (mkCtx inp g) inp.playA inp.playB (roundFuel (mkCtx inp g) blind) 0
    (initBetState blind g.a_first)

/-- `IPGame.playRound`: run the betting loop, then resolve. On a fold the
folder pays `current_bet` plus `foldPenalty` to the opponent and the
opponent acts first next round. On a showdown, `A_WIN` moves `a_bet` from
B to A and makes A first; otherwise (`DRAW` or `B_WIN`, the source's
single `else` branch) `a_bet` moves from A to B and B is first. The
`none` branch (fuel exhaustion) is unreachable by `bettingLoop_isSome`. -/
def playRound (blind : ℤ) (inp : RoundInput) (g : GState) : GState :=
  match roundLoop blind inp g with
  | some (LoopResult.fold a_folded cb) =>
      let score_a := calculateScore inp.a_card inp.common1 inp.common2
      let score_b := calculateScore inp.b_card inp.common1 inp.common2
      if a_folded then
        let pay := cb + foldPenalty score_a score_b
        ⟨g.a_chips - pay, g.b_chips + pay, false⟩
      else
        let pay := cb + foldPenalty score_b score_a
        ⟨g.a_chips + pay, g.b_chips - pay, true⟩
  | some (LoopResult.showdown a_bet) =>
      match showdown inp.a_card inp.b_card inp.common1 inp.common2 with
      | RoundResult.A_WIN => ⟨g.a_chips + a_bet, g.b_chips - a_bet, true⟩
      | _ => ⟨g.a_chips - a_bet, g.b_chips + a_bet, false⟩
  | none => g

/-- The `while` loop of `IPGame.playGame`, with fuel. `playGame` passes
`fuel = max_length`; since `length` increases by one per iteration and the
loop requires `length < max_length`, the fuel-exhaustion branch is never
the one that decides the exit (see `playGameLoop_exit`). Returns the final
game state together with the final `length` counter. -/
def playGameLoop (blind : ℤ) (inputs : ℕ → RoundInput) (max_length : ℕ) :
    ℕ → GState → ℕ → GState × ℕ
  | 0, g, len => (g, len)
  | fuel + 1, g, len =>
      if 0 < g.a_chips ∧ 0 < g.b_chips ∧ len < max_length then
        playGameLoop blind inputs max_length fuel (playRound blind (inputs len) g) (len + 1)
      else (g, len)

/-- `IPGame.playGame`: run rounds while both stacks are positive and the
round counter is below `max_length`; then return `(0.5, 0.5)` if
`length >= max_length`, else `(1.0, 0.0)` if `a_chips > 0`, else
`(0.0, 1.0)`. Points are modelled as rationals. -/
def playGame (blind : ℤ) (inputs : ℕ → RoundInput) (max_length : ℕ)
    (g : GState) : ℚ × ℚ :=
  let r := playGameLoop blind inputs max_length max_length g 0
  if max_length ≤ r.2 then (1/2, 1/2)
  else if 0 < r.1.a_chips then (1, 0)
  else (0, 1)

/-- The game-construction arguments of `IPTournament.playTournament`:
`for i in range(seed, seed + num_games)` it builds
`IPGame(i, ..., a_first = i % 2 == 0)`. Entry `j` of the returned list is
the pair (seed, a_first) of the `j`-th game. -/
def tournamentGameArgs (seed : ℤ) (num_games : ℕ) : List (ℤ × Bool) :=
  (List.range num_games).map
    (fun j : ℕ => (seed + (j : ℤ), decide ((seed + (j : ℤ)) % 2 = 0)))

/-- Once both raise flags are false, the betting loop exits immediately
with a showdown at the current `a_bet`, whatever fuel remains. -/
theorem bettingLoop_flags_false (ctx : RoundCtx) (pA pB : ℕ → VisibleState → ℤ)
    (fuel i : ℕ) (st : BetState) (hA : st.a_can_raise = false)
    (hB : st.b_can_raise = false) :
    bettingLoop ctx pA pB fuel i st = some (LoopResult.showdown st.a_bet) := by
  cases fuel <;> simp [bettingLoop, hA, hB]

/-- The all-in clamp never yields more than the shorter stack. -/
theorem clampBet_le_min (a b p : ℤ) : clampBet a b p ≤ min a b := by
  unfold clampBet
  split
  · exact le_rfl
  · next h => exact (not_le.mp h).le

/-- If an iteration of the betting loop body folds, it reports the acting
side and the `current_bet` in force at that moment. -/
theorem bettingStep_inl (ctx : RoundCtx) (pA pB : ℕ → VisibleState → ℤ)
    (i : ℕ) (st : BetState) (r : LoopResult)
    (h : bettingStep ctx pA pB i st = Sum.inl r) :
    r = LoopResult.fold st.a_turn st.current_bet := by
  unfold bettingStep at h
  split at h <;> dsimp only at h <;> split at h <;>
    first
      | exact ((Sum.inl.injEq _ _).mp h).symm
      | simp at h

/-- Characterization of a non-fold iteration of the betting loop body:
the clamped proposal is at least `current_bet` and at most the shorter
stack, and the next state is exactly the source's update of the bets,
flags, turn and `current_bet`. -/
theorem bettingStep_inr (ctx : RoundCtx) (pA pB : ℕ → VisibleState → ℤ)
    (i : ℕ) (st st2 : BetState)
    (h : bettingStep ctx pA pB i st = Sum.inr st2) :
    ∃ proposed, st.current_bet ≤ proposed ∧
      proposed ≤ min ctx.a_chips ctx.b_chips ∧
      ((st.a_turn = true ∧
        st2 = ⟨proposed, st.b_bet, max st.current_bet (max proposed st.b_bet),
               false, decide (st.current_bet < proposed), false⟩) ∨
       (st.a_turn = false ∧
        st2 = ⟨st.a_bet, proposed, max st.current_bet (max st.a_bet proposed),
               decide (st.current_bet < proposed), false, true⟩)) := by
  unfold bettingStep at h
  split at h
  case isTrue hT =>
    dsimp only at h
    split at h
    case isTrue hlt => simp at h
    case isFalse hlt =>
      rw [Sum.inr.injEq] at h
      refine ⟨clampBet ctx.a_chips ctx.b_chips
          ((if st.a_turn then pA else pB) i (stepVisible ctx st)),
        ?_, clampBet_le_min _ _ _, Or.inl ⟨hT, ?_⟩⟩
      · rw [if_pos hT]; exact not_lt.mp hlt
      · rw [if_pos hT]; exact h.symm
  case isFalse hT =>
    have hF : st.a_turn = false := by simpa using hT
    dsimp only at h
    split at h
    case isTrue hlt => simp at h
    case isFalse hlt =>
      rw [Sum.inr.injEq] at h
      refine ⟨clampBet ctx.a_chips ctx.b_chips
          ((if st.a_turn then pA else pB) i (stepVisible ctx st)),
        ?_, clampBet_le_min _ _ _, Or.inr ⟨hF, ?_⟩⟩
      · rw [if_neg hT]; exact not_lt.mp hlt
      · rw [if_neg hT]; exact h.symm

/-- Termination of the betting loop: with both bets at most
`current_bet`, any fuel exceeding `(min a_chips b_chips - current_bet)`
suffices, because an iteration either ends the round (fold, or a call
that clears both raise flags) or strictly raises `current_bet`, which
the all-in clamp bounds by the shorter stack. -/
theorem bettingLoop_isSome (ctx : RoundCtx) (pA pB : ℕ → VisibleState → ℤ) :
    ∀ (fuel i : ℕ) (st : BetState), st.a_bet ≤ st.current_bet →
      st.b_bet ≤ st.current_bet →
      (min ctx.a_chips ctx.b_chips - st.current_bet).toNat < fuel →
      (bettingLoop ctx pA pB fuel i st).isSome := by
  intro fuel
  induction fuel with
  | zero => intro i st _ _ hf; exact absurd hf (Nat.not_lt_zero _)
  | succ fuel ih =>
    intro i st ha hb hf
    rw [bettingLoop]
    by_cases hflag : (st.a_can_raise || st.b_can_raise) = true
    · rw [if_pos hflag]
      rcases hstep : bettingStep ctx pA pB i st with r | st2
      · show (some r).isSome = true
        rfl
      · show (bettingLoop ctx pA pB fuel (i + 1) st2).isSome = true
        obtain ⟨p, hcb, hpM, hcases⟩ := bettingStep_inr ctx pA pB i st st2 hstep
        by_cases hraise : st.current_bet < p
        · rcases hcases with ⟨hT, hst2⟩ | ⟨hT, hst2⟩ <;> subst hst2
          · have hbp : st.b_bet ≤ p := le_trans hb hcb
            have hmax : max st.current_bet (max p st.b_bet) = p := by
              rw [max_eq_left hbp, max_eq_right hcb]
            apply ih (i + 1)
            · show p ≤ max st.current_bet (max p st.b_bet)
              rw [hmax]
            · show st.b_bet ≤ max st.current_bet (max p st.b_bet)
              rw [hmax]; exact hbp
            · show (min ctx.a_chips ctx.b_chips -
                  max st.current_bet (max p st.b_bet)).toNat < fuel
              rw [hmax]; omega
          · have hap : st.a_bet ≤ p := le_trans ha hcb
            have hmax : max st.current_bet (max st.a_bet p) = p := by
              rw [max_eq_right hap, max_eq_right hcb]
            apply ih (i + 1)
            · show st.a_bet ≤ max st.current_bet (max st.a_bet p)
              rw [hmax]; exact hap
            · show p ≤ max st.current_bet (max st.a_bet p)
              rw [hmax]
            · show (min ctx.a_chips ctx.b_chips -
                  max st.current_bet (max st.a_bet p)).toNat < fuel
              rw [hmax]; omega
        · rcases hcases with ⟨hT, hst2⟩ | ⟨hT, hst2⟩ <;> subst hst2 <;>
            rw [bettingLoop_flags_false ctx pA pB fuel (i + 1) _
              (by first | rfl | exact decide_eq_false hraise)
              (by first | rfl | exact decide_eq_false hraise)] <;>
            simp
    · rw [if_neg hflag]; simp

/-- Along any run of the betting loop that ends in a showdown, the
transferred amount `a_bet` stays within `[0, min a_chips b_chips]`,
provided it starts there with a non-negative `current_bet`: `a_bet` is
only ever replaced by a clamped proposal that is at least `current_bet`. -/
theorem bettingLoop_showdown_le (ctx : RoundCtx) (pA pB : ℕ → VisibleState → ℤ) :
    ∀ (fuel i : ℕ) (st : BetState) (bet : ℤ),
      0 ≤ st.current_bet → 0 ≤ st.a_bet →
      st.a_bet ≤ min ctx.a_chips ctx.b_chips →
      bettingLoop ctx pA pB fuel i st = some (LoopResult.showdown bet) →
      0 ≤ bet ∧ bet ≤ min ctx.a_chips ctx.b_chips := by
  intro fuel
  induction fuel with
  | zero =>
    intro i st bet h0 h1 h2 h
    rw [bettingLoop] at h
    by_cases hflag : (st.a_can_raise || st.b_can_raise) = true
    · rw [if_pos hflag] at h; exact absurd h (by simp)
    · rw [if_neg hflag] at h
      obtain rfl := LoopResult.showdown.inj (Option.some.inj h)
      exact ⟨h1, h2⟩
  | succ fuel ih =>
    intro i st bet h0 h1 h2 h
    rw [bettingLoop] at h
    by_cases hflag : (st.a_can_raise || st.b_can_raise) = true
    · rw [if_pos hflag] at h
      rcases hstep : bettingStep ctx pA pB i st with r | st2 <;> rw [hstep] at h
      · obtain rfl := bettingStep_inl ctx pA pB i st r hstep
        exact absurd (Option.some.inj h) (by simp)
      · have hbl : bettingLoop ctx pA pB fuel (i + 1) st2 =
            some (LoopResult.showdown bet) := h
        obtain ⟨p, hcb, hpM, hcases⟩ := bettingStep_inr ctx pA pB i st st2 hstep
        rcases hcases with ⟨hT, hst2⟩ | ⟨hT, hst2⟩ <;> subst hst2
        · refine ih (i + 1) _ bet ?_ ?_ ?_ hbl
          · exact le_trans h0 (le_max_left _ _)
          · exact le_trans h0 hcb
          · exact hpM
        · refine ih (i + 1) _ bet ?_ ?_ ?_ hbl
          · exact le_trans h0 (le_max_left _ _)
          · exact h1
          · exact h2
    · rw [if_neg hflag] at h
      obtain rfl := LoopResult.showdown.inj (Option.some.inj h)
      exact ⟨h1, h2⟩

/-- The loop of `IPGame.playGame` either consumes all its fuel (one unit
per executed round) or stops in a state falsifying the loop condition. -/
theorem playGameLoop_exit (blind : ℤ) (inputs : ℕ → RoundInput) (maxLen : ℕ) :
    ∀ (fuel : ℕ) (g : GState) (len : ℕ),
      (playGameLoop blind inputs maxLen fuel g len).2 = len + fuel ∨
      ¬(0 < (playGameLoop blind inputs maxLen fuel g len).1.a_chips ∧
        0 < (playGameLoop blind inputs maxLen fuel g len).1.b_chips ∧
        (playGameLoop blind inputs maxLen fuel g len).2 < maxLen) := by
  intro fuel
  induction fuel with
  | zero => intro g len; left; simp [playGameLoop]
  | succ fuel ih =>
    intro g len
    rw [playGameLoop]
    by_cases hc : 0 < g.a_chips ∧ 0 < g.b_chips ∧ len < maxLen
    · rw [if_pos hc]
      rcases ih (playRound blind (inputs len) g) (len + 1) with h | h
      · left; rw [h]; omega
      · right; exact h
    · rw [if_neg hc]; right; exact hc

/-- Claim C5: for all ranks c, x, y in 1..10, `calculateScore` is invariant
under swapping its two community-card arguments; any input multiset equal
to (1, 9, 10) scores 21, any input multiset equal to (1, 2, 10) scores 22,
and any plain consecutive run (n, n+1, n+2) with n in 1..8 scores 22 + n. -/
theorem calculateScore_spec :
    ∀ c ∈ Finset.Icc 1 10, ∀ x ∈ Finset.Icc 1 10, ∀ y ∈ Finset.Icc 1 10,
      calculateScore c x y = calculateScore c y x ∧
      (({c, x, y} : Multiset ℕ) = {1, 9, 10} → calculateScore c x y = 21) ∧
      (({c, x, y} : Multiset ℕ) = {1, 2, 10} → calculateScore c x y = 22) ∧
      (∀ n ∈ Finset.Icc 1 8, ({c, x, y} : Multiset ℕ) = {n, n + 1, n + 2} →
        calculateScore c x y = 22 + n) := by
  decide

/-- Witness for C5 at the concrete input (10, 1, 9): swapping the community
cards preserves the score, and the wrap set scores 21. -/
theorem calculateScore_spec_witness :
    calculateScore 10 1 9 = calculateScore 10 9 1 ∧
    (({10, 1, 9} : Multiset ℕ) = {1, 9, 10} → calculateScore 10 1 9 = 21) ∧
    (({10, 1, 9} : Multiset ℕ) = {1, 2, 10} → calculateScore 10 1 9 = 22) ∧
    (∀ n ∈ Finset.Icc 1 8, ({10, 1, 9} : Multiset ℕ) = {n, n + 1, n + 2} →
      calculateScore 10 1 9 = 22 + n) :=
  calculateScore_spec 10 (by decide) 1 (by decide) 9 (by decide)



/-- Claim C10: the betting loop of `playRound` terminates for every pair of
agents and every integer bet stream, independently of `max_length`: any
fuel at least `roundFuel` (one more than the gap between the blind and the
shorter stack) returns a result, because a below-`current_bet` proposal
folds, a non-raising proposal clears both raise flags, and a raise
strictly increases `current_bet`, which the all-in clamp bounds by
`min a_chips b_chips`. -/
theorem playRound_betting_terminates (ctx : RoundCtx)
    (pA pB : ℕ → VisibleState → ℤ) (blind : ℤ) (a_first : Bool) (fuel : ℕ)
    (hfuel : roundFuel ctx blind ≤ fuel) :
    (bettingLoop ctx pA pB fuel 0 (initBetState blind a_first)).isSome := by
  apply bettingLoop_isSome ctx pA pB fuel 0 (initBetState blind a_first) le_rfl le_rfl
  show (min ctx.a_chips ctx.b_chips - blind).toNat < fuel
  unfold roundFuel at hfuel
  omega

/-- Witness for C10: with stacks 20/20 and blind 1, fuel 20 is enough, and
the loop indeed returns a result. -/
theorem playRound_betting_terminates_witness :
    roundFuel ⟨5, 5, 2, 7, 20, 20⟩ 1 ≤ 20 ∧
    (bettingLoop ⟨5, 5, 2, 7, 20, 20⟩ (fun _ _ => 1) (fun _ _ => 1) 20 0
      (initBetState 1 false)).isSome = true :=
  ⟨by decide, playRound_betting_terminates ⟨5, 5, 2, 7, 20, 20⟩
    (fun _ _ => 1) (fun _ _ => 1) 1 false 20 (by decide)⟩

/-- Claim C2: when a round ends in a fold at current bet `cb`, the folder
pays `cb` plus a penalty that is 10 when the folder's score beats the
opponent's and exceeds 20, is 5 when it beats the opponent's and lies in
(10, 20], and is 0 otherwise; the opponent gains exactly the same amount,
and the non-folding side acts first next round. -/
theorem playRound_fold_spec (blind : ℤ) (inp : RoundInput) (g : GState)
    (aF : Bool) (cb : ℤ)
    (h : roundLoop blind inp g = some (LoopResult.fold aF cb)) :
    playRound blind inp g =
      (let s_a := calculateScore inp.a_card inp.common1 inp.common2
       let s_b := calculateScore inp.b_card inp.common1 inp.common2
       let s_f := if aF then s_a else s_b
       let s_o := if aF then s_b else s_a
       let pen : ℤ :=
         if s_o < s_f ∧ 20 < s_f then 10
         else if s_o < s_f ∧ 10 < s_f ∧ s_f ≤ 20 then 5
         else 0
       if aF then ⟨g.a_chips - (cb + pen), g.b_chips + (cb + pen), false⟩
       else ⟨g.a_chips + (cb + pen), g.b_chips - (cb + pen), true⟩) := by
  have hpen : ∀ f o : ℕ, foldPenalty f o =
      if o < f ∧ 20 < f then (10 : ℤ)
      else if o < f ∧ 10 < f ∧ f ≤ 20 then 5 else 0 := by
    intro f o
    unfold foldPenalty
    split_ifs <;> omega
  unfold playRound
  rw [h]
  dsimp only
  cases aF <;> simp [hpen]

/-- Witness for C2: player A folds to the blind with a losing hand,
paying exactly the current bet 1 with penalty 0, and B acts first next. -/
theorem playRound_fold_spec_witness :
    roundLoop 1 ⟨1, 2, 3, 4, fun _ _ => 0, fun _ _ => 0⟩ ⟨20, 20, true⟩ =
      some (LoopResult.fold true 1) ∧
    playRound 1 ⟨1, 2, 3, 4, fun _ _ => 0, fun _ _ => 0⟩ ⟨20, 20, true⟩ =
      ⟨19, 21, false⟩ :=
  ⟨by decide,
    (playRound_fold_spec 1 ⟨1, 2, 3, 4, fun _ _ => 0, fun _ _ => 0⟩
      ⟨20, 20, true⟩ true 1 (by decide)).trans (by decide)⟩

/-- Every resolution path of `playRound` moves chips from one side to the
other in equal amounts, so the total is always conserved (the source
credits the whole `current_bet + penalty`, or `a_bet`, to the winner). -/
theorem playRound_sum (blind : ℤ) (inp : RoundInput) (g : GState) :
    (playRound blind inp g).a_chips + (playRound blind inp g).b_chips =
      g.a_chips + g.b_chips := by
  unfold playRound
  rcases hr : roundLoop blind inp g with _ | r
  · rfl
  · rcases r with ⟨aF, cb⟩ | bet
    · cases aF <;> simp
    · cases hsd : showdown inp.a_card inp.b_card inp.common1 inp.common2 <;>
        simp

/-- Claim C4: a round resolved by showdown, or by a fold in which the
folder's score does not beat the opponent's, conserves the total
`a_chips + b_chips`. -/
theorem playRound_conserves (blind : ℤ) (inp : RoundInput) (g : GState)
    (h : (∃ bet, roundLoop blind inp g = some (LoopResult.showdown bet)) ∨
         (∃ aF cb, roundLoop blind inp g = some (LoopResult.fold aF cb) ∧
           (if aF then
              calculateScore inp.a_card inp.common1 inp.common2 ≤
                calculateScore inp.b_card inp.common1 inp.common2
            else
              calculateScore inp.b_card inp.common1 inp.common2 ≤
                calculateScore inp.a_card inp.common1 inp.common2))) :
    (playRound blind inp g).a_chips + (playRound blind inp g).b_chips =
      g.a_chips + g.b_chips :=
  playRound_sum blind inp g

/-- Witness for C4: a drawn showdown at bet 1 leaves the 40-chip total
unchanged. -/
theorem playRound_conserves_witness :
    (playRound 1 ⟨5, 5, 2, 7, fun _ _ => 1, fun _ _ => 1⟩ ⟨20, 20, false⟩).a_chips +
      (playRound 1 ⟨5, 5, 2, 7, fun _ _ => 1, fun _ _ => 1⟩ ⟨20, 20, false⟩).b_chips =
      (20 : ℤ) + 20 :=
  playRound_conserves 1 ⟨5, 5, 2, 7, fun _ _ => 1, fun _ _ => 1⟩ ⟨20, 20, false⟩
    (Or.inl ⟨1, by decide⟩)

/-- Counterexample to C3: a fold by A holding a triple (score 30 beats 2,
penalty 10) transfers `current_bet + 10 = 11` chips from A to B, and the
total `9 + 31 = 40` equals the total before the round: the penalty is paid
to the opponent, not created out of nothing, so the claimed
non-conservation is false. -/
theorem playRound_fold_penalty_cex :
    roundLoop 1 ⟨10, 2, 10, 10, fun _ _ => 0, fun _ _ => 0⟩ ⟨20, 20, true⟩ =
      some (LoopResult.fold true 1) ∧
    foldPenalty (calculateScore 10 10 10) (calculateScore 2 10 10) = 10 ∧
    playRound 1 ⟨10, 2, 10, 10, fun _ _ => 0, fun _ _ => 0⟩ ⟨20, 20, true⟩ =
      ⟨9, 31, false⟩ ∧
    (9 : ℤ) + 31 = 20 + 20 :=
  ⟨by decide, by decide, by decide, by decide⟩

/-- Claim C3 (amended): a round ending in a fold with a non-zero penalty
conserves `a_chips + b_chips`; the penalty chips are transferred from the
folder to the opponent (the opponent gains `current_bet + penalty`), not
created out of nothing. -/
theorem playRound_fold_penalty_transfer (blind : ℤ) (inp : RoundInput)
    (g : GState) (aF : Bool) (cb : ℤ)
    (h : roundLoop blind inp g = some (LoopResult.fold aF cb))
    (hpen : foldPenalty
        (if aF then calculateScore inp.a_card inp.common1 inp.common2
         else calculateScore inp.b_card inp.common1 inp.common2)
        (if aF then calculateScore inp.b_card inp.common1 inp.common2
         else calculateScore inp.a_card inp.common1 inp.common2) ≠ 0) :
    (playRound blind inp g).a_chips + (playRound blind inp g).b_chips =
      g.a_chips + g.b_chips ∧
    (aF = true → (playRound blind inp g).b_chips =
      g.b_chips + (cb + foldPenalty
        (calculateScore inp.a_card inp.common1 inp.common2)
        (calculateScore inp.b_card inp.common1 inp.common2))) ∧
    (aF = false → (playRound blind inp g).a_chips =
      g.a_chips + (cb + foldPenalty
        (calculateScore inp.b_card inp.common1 inp.common2)
        (calculateScore inp.a_card inp.common1 inp.common2))) := by
  refine ⟨playRound_sum blind inp g, ?_, ?_⟩ <;> intro haF <;> subst haF <;>
    unfold playRound <;> rw [h] <;> simp

/-- Witness for C3 (amended), at the counterexample's input: A folds a
triple, penalty 10, and the 40-chip total is conserved with B receiving
`1 + 10`. -/
theorem playRound_fold_penalty_transfer_witness :
    (playRound 1 ⟨10, 2, 10, 10, fun _ _ => 0, fun _ _ => 0⟩ ⟨20, 20, true⟩).a_chips +
      (playRound 1 ⟨10, 2, 10, 10, fun _ _ => 0, fun _ _ => 0⟩ ⟨20, 20, true⟩).b_chips =
      (20 : ℤ) + 20 ∧
    (true = true →
      (playRound 1 ⟨10, 2, 10, 10, fun _ _ => 0, fun _ _ => 0⟩ ⟨20, 20, true⟩).b_chips =
        (20 : ℤ) + (1 + foldPenalty (calculateScore 10 10 10) (calculateScore 2 10 10))) ∧
    (true = false →
      (playRound 1 ⟨10, 2, 10, 10, fun _ _ => 0, fun _ _ => 0⟩ ⟨20, 20, true⟩).a_chips =
        (20 : ℤ) + (1 + foldPenalty (calculateScore 2 10 10) (calculateScore 10 10 10))) :=
  playRound_fold_penalty_transfer 1 ⟨10, 2, 10, 10, fun _ _ => 0, fun _ _ => 0⟩
    ⟨20, 20, true⟩ true 1 (by decide) (by decide)

/-- Counterexample to C1: player B acts first (`a_first = false`), the
showdown is a draw, and yet A pays the bet to B (A drops from 20 to 19)
and B, the first-acting side, acts first again next round — not B paying
A as the claim states. -/
theorem playRound_draw_cex :
    roundLoop 1 ⟨5, 5, 2, 7, fun _ _ => 1, fun _ _ => 1⟩ ⟨20, 20, false⟩ =
      some (LoopResult.showdown 1) ∧
    showdown 5 5 2 7 = RoundResult.DRAW ∧
    playRound 1 ⟨5, 5, 2, 7, fun _ _ => 1, fun _ _ => 1⟩ ⟨20, 20, false⟩ =
      ⟨19, 21, false⟩ :=
  ⟨by decide, by decide, by decide⟩

/-- Claim C1 (amended): a drawn showdown always transfers the final bet
from side A to side B and makes B the next round's first-to-act — the
same path as a B win — regardless of which side acted first in the round. -/
theorem playRound_draw_spec (blind : ℤ) (inp : RoundInput) (g : GState)
    (bet : ℤ)
    (h : roundLoop blind inp g = some (LoopResult.showdown bet))
    (hd : showdown inp.a_card inp.b_card inp.common1 inp.common2 =
      RoundResult.DRAW) :
    playRound blind inp g = ⟨g.a_chips - bet, g.b_chips + bet, false⟩ := by
  unfold playRound
  rw [h]
  dsimp only
  rw [hd]

/-- Witness for C1 (amended) at the counterexample's input. -/
theorem playRound_draw_spec_witness :
    playRound 1 ⟨5, 5, 2, 7, fun _ _ => 1, fun _ _ => 1⟩ ⟨20, 20, false⟩ =
      ⟨20 - 1, 20 + 1, false⟩ :=
  playRound_draw_spec 1 ⟨5, 5, 2, 7, fun _ _ => 1, fun _ _ => 1⟩
    ⟨20, 20, false⟩ 1 (by decide) (by decide)


/-- Counterexample to C9: with stacks 1/20 (both positive, a completed
round boundary) and blind 1, A folds a triple and pays the unclamped
`current_bet + penalty = 11`, ending the round at `a_chips = -10`: chip
stacks can be negative at a state where the round has resolved, both
immediately after `playRound` and at `playGame`'s exit. -/
theorem playRound_nonneg_cex :
    playRound 1 ⟨10, 2, 10, 10, fun _ _ => 0, fun _ _ => 0⟩ ⟨1, 20, true⟩ =
      ⟨-10, 31, false⟩ ∧
    (playGameLoop 1 (fun _ => ⟨10, 2, 10, 10, fun _ _ => 0, fun _ _ => 0⟩)
      5 5 ⟨1, 20, true⟩ 0).1.a_chips = -10 :=
  ⟨by decide, by decide⟩

/-- Claim C9 (amended): any proposal at or above `min(own, opp)` is
clamped to that minimum, so a round that ends in a *showdown* (with
non-negative stacks and a blind between 0 and the shorter stack) leaves
both stacks non-negative; fold resolutions are not so bounded, because
the fold payment `current_bet + penalty` is never clamped, and can leave
the folder's stack negative between rounds. -/
theorem playRound_showdown_nonneg (blind : ℤ) (inp : RoundInput)
    (g : GState) (bet : ℤ)
    (h0 : 0 ≤ blind) (hmin : blind ≤ min g.a_chips g.b_chips)
    (ha : 0 ≤ g.a_chips) (hb : 0 ≤ g.b_chips)
    (h : roundLoop blind inp g = some (LoopResult.showdown bet)) :
    (∀ p, min g.a_chips g.b_chips ≤ p →
      clampBet g.a_chips g.b_chips p = min g.a_chips g.b_chips) ∧
    0 ≤ (playRound blind inp g).a_chips ∧
    0 ≤ (playRound blind inp g).b_chips := by
  have hbet : 0 ≤ bet ∧ bet ≤ min g.a_chips g.b_chips :=
    bettingLoop_showdown_le (mkCtx inp g) inp.playA inp.playB
      (roundFuel (mkCtx inp g) blind) 0 (initBetState blind g.a_first) bet
      h0 h0 hmin h
  obtain ⟨hb0, hbM⟩ := hbet
  have hma := min_le_left g.a_chips g.b_chips
  have hmb := min_le_right g.a_chips g.b_chips
  refine ⟨fun p hp => by unfold clampBet; rw [if_pos hp], ?_⟩
  unfold playRound
  rw [h]
  cases hsd : showdown inp.a_card inp.b_card inp.common1 inp.common2 <;>
    constructor <;> simp <;> omega

/-- Witness for C9 (amended): a drawn single-call showdown from 20/20
stacks ends at 19/21, both non-negative. -/
theorem playRound_showdown_nonneg_witness :
    (∀ p, min (20 : ℤ) 20 ≤ p → clampBet 20 20 p = min (20 : ℤ) 20) ∧
    0 ≤ (playRound 1 ⟨5, 5, 2, 7, fun _ _ => 1, fun _ _ => 1⟩
      ⟨20, 20, true⟩).a_chips ∧
    0 ≤ (playRound 1 ⟨5, 5, 2, 7, fun _ _ => 1, fun _ _ => 1⟩
      ⟨20, 20, true⟩).b_chips :=
  playRound_showdown_nonneg 1 ⟨5, 5, 2, 7, fun _ _ => 1, fun _ _ => 1⟩
    ⟨20, 20, true⟩ 1 (by decide) (by decide) (by decide) (by decide) (by decide)

/-- Counterexample to C6: with `max_length = 1`, the only round
eliminates player A (stack 1 drops to 0), so elimination happens on the
very round at which the counter reaches `max_length` — yet `playGame`
returns `(0.5, 0.5)`, not `(0.0, 1.0)`, because the `length >=
max_length` check is applied first. -/
theorem playGame_cap_cex :
    playGame 1 (fun _ => ⟨1, 2, 3, 4, fun _ _ => 0, fun _ _ => 0⟩) 1
      ⟨1, 20, true⟩ = (1/2, 1/2) ∧
    (playGameLoop 1 (fun _ => ⟨1, 2, 3, 4, fun _ _ => 0, fun _ _ => 0⟩) 1 1
      ⟨1, 20, true⟩ 0).1 = ⟨0, 21, false⟩ ∧
    (playGameLoop 1 (fun _ => ⟨1, 2, 3, 4, fun _ _ => 0, fun _ _ => 0⟩) 1 1
      ⟨1, 20, true⟩ 0).2 = 1 :=
  ⟨rfl, by decide, by decide⟩

/-- Claim C6 (amended): `playGame` returns `(0.5, 0.5)` exactly when the
round counter reached `max_length`, even if a player was eliminated on
the final round; when the loop exits before the cap, some stack is
non-positive and the result is winner-take-all: `(1.0, 0.0)` if
`a_chips > 0` (B then being eliminated), `(0.0, 1.0)` if `a_chips <= 0`. -/
theorem playGame_result_spec (blind : ℤ) (inputs : ℕ → RoundInput)
    (max_length : ℕ) (g : GState) :
    (playGame blind inputs max_length g = (1/2, 1/2) ↔
      max_length ≤ (playGameLoop blind inputs max_length max_length g 0).2) ∧
    ((playGameLoop blind inputs max_length max_length g 0).2 < max_length →
      ((playGameLoop blind inputs max_length max_length g 0).1.a_chips ≤ 0 ∨
       (playGameLoop blind inputs max_length max_length g 0).1.b_chips ≤ 0) ∧
      (0 < (playGameLoop blind inputs max_length max_length g 0).1.a_chips →
        playGame blind inputs max_length g = (1, 0)) ∧
      ((playGameLoop blind inputs max_length max_length g 0).1.a_chips ≤ 0 →
        playGame blind inputs max_length g = (0, 1))) := by
  set r := playGameLoop blind inputs max_length max_length g 0 with hr
  constructor
  · constructor
    · intro hres
      by_contra hlt
      push_neg at hlt
      unfold playGame at hres
      rw [← hr, if_neg (not_le.mpr hlt)] at hres
      by_cases hap : 0 < r.1.a_chips
      · rw [if_pos hap] at hres
        exact absurd (congrArg Prod.fst hres) (by norm_num)
      · rw [if_neg hap] at hres
        exact absurd (congrArg Prod.fst hres) (by norm_num)
    · intro hge
      unfold playGame
      rw [← hr, if_pos hge]
  · intro hlt
    have hexit := playGameLoop_exit blind inputs max_length max_length g 0
    rw [← hr] at hexit
    have hne : ¬(0 < r.1.a_chips ∧ 0 < r.1.b_chips ∧ r.2 < max_length) := by
      rcases hexit with he | he
      · omega
      · exact he
    refine ⟨?_, ?_, ?_⟩
    · by_contra hc
      push_neg at hc
      exact hne ⟨hc.1, hc.2, hlt⟩
    · intro hap
      unfold playGame
      rw [← hr, if_neg (not_le.mpr hlt), if_pos hap]
    · intro han
      unfold playGame
      rw [← hr, if_neg (not_le.mpr hlt), if_neg (not_lt.mpr han)]

/-- Witness for C6 (amended): the game from stacks 1/20 under a cap of 5
rounds ends by elimination after one round and scores `(0.0, 1.0)`. -/
theorem playGame_result_spec_witness :
    playGame 1 (fun _ => ⟨1, 2, 3, 4, fun _ _ => 0, fun _ _ => 0⟩) 5
      ⟨1, 20, true⟩ = (0, 1) :=
  ((playGame_result_spec 1 (fun _ => ⟨1, 2, 3, 4, fun _ _ => 0, fun _ _ => 0⟩)
    5 ⟨1, 20, true⟩).2 (by decide)).2.2 (by decide)

/-- Counterexample to C7: with starting seed 1, the game at offset
`j = 0` (an even offset) is built with `a_first = (1 % 2 == 0) = False`:
which side acts first follows the parity of the seed value `s + j`, not
of the offset `j`. -/
theorem playTournament_parity_cex :
    tournamentGameArgs 1 1 = [(1, false)] ∧ (0 : ℕ) % 2 = 0 :=
  ⟨by decide, rfl⟩

/-- Claim C7 (amended): `playTournament` runs the `j`-th game with seed
`s + j`, and side A acts first in that game if and only if the seed value
`s + j` is even (for an even starting seed this coincides with the
claimed parity of the offset `j`, for an odd one it is its negation). -/
theorem tournamentGameArgs_spec (seed : ℤ) (num_games j : ℕ)
    (hj : j < num_games) :
    (tournamentGameArgs seed num_games)[j]? =
      some (seed + j, decide ((seed + j) % 2 = 0)) ∧
    (decide ((seed + (j : ℤ)) % 2 = 0) = true ↔ Even (seed + (j : ℤ))) := by
  constructor
  · unfold tournamentGameArgs
    simp [List.getElem?_map, List.getElem?_range hj]
  · simp [Int.even_iff]

/-- Witness for C7 (amended): the second game of a seed-1 tournament has
seed 2 and A to act first. -/
theorem tournamentGameArgs_spec_witness :
    (tournamentGameArgs 1 2)[1]? =
      some ((1 : ℤ) + (1 : ℕ), decide (((1 : ℤ) + (1 : ℕ)) % 2 = 0)) ∧
    (decide (((1 : ℤ) + (1 : ℕ)) % 2 = 0) = true ↔ Even ((1 : ℤ) + (1 : ℕ))) :=
  tournamentGameArgs_spec 1 2 1 (by decide)

/-- Claim C8: the snapshot handed to the acting player holds exactly the
two community cards, the opponent's private card, the actor's own chips
and current bet, the opponent's chips and current bet, and the negation
of the opponent's can-raise flag; replacing the acting player's own
private card changes neither the snapshot nor the entire resulting
betting transition, for either acting side. -/
theorem stepVisible_spec (ctx : RoundCtx) (st : BetState) (x : ℕ)
    (pA pB : ℕ → VisibleState → ℤ) (i : ℕ) :
    stepVisible ctx st =
      (if st.a_turn then
        ⟨ctx.common1, ctx.common2, ctx.b_card, ctx.a_chips, ctx.b_chips,
          st.a_bet, st.b_bet, !st.b_can_raise⟩
      else
        ⟨ctx.common1, ctx.common2, ctx.a_card, ctx.b_chips, ctx.a_chips,
          st.b_bet, st.a_bet, !st.a_can_raise⟩) ∧
    stepVisible (actorCardUpdated ctx st x) st = stepVisible ctx st ∧
    bettingStep (actorCardUpdated ctx st x) pA pB i st =
      bettingStep ctx pA pB i st := by
  refine ⟨rfl, ?_, ?_⟩ <;>
    by_cases hT : st.a_turn = true <;>
      simp [stepVisible, actorCardUpdated, bettingStep, hT]


end IndianPoker
